import Mathlib

/-!
Verification of the streaming GeoJSON export engine of
`PythonModule/GeojsonGenerator/GeojsonGenerator.py`.

The `psycopg2.sql` fragment system is embedded as a list of tagged parts
(`SqlPart`): `raw` mirrors `sql.SQL`, `ident` mirrors `sql.Identifier` and
`lit` mirrors `sql.Literal`.  A `format` or `join` call flattens into list
concatenation, exactly following the template strings of the source.
String literals below write an apostrophe as `\x27`, an opening brace as
`\x7b` and a closing brace as `\x7d`.
-/

inductive SqlVal where
  | s : String → SqlVal
  | i : Int → SqlVal
deriving DecidableEq, Repr

inductive SqlPart where
  | raw : String → SqlPart
  | ident : String → SqlPart
  | lit : SqlVal → SqlPart
deriving DecidableEq, Repr

/-- `sql.SQL(sep).join(xs)`: interleave `sep` between the part lists. -/
def sqlJoin (sep : SqlPart) : List (List SqlPart) → List SqlPart
  | [] => []
  | [x] => x
  | x :: xs => x ++ sep :: sqlJoin sep xs

/-- The raw (`sql.SQL`) fragments of a composed query, in order. -/
def rawParts (q : List SqlPart) : List String :=
  q.filterMap (fun p => match p with | .raw s => some s | _ => none)

/-- Column selection of an export spec: the `"*"` sentinel, an omitted
list (`None`), or an explicit list of column names. -/
inductive ColumnsSel where
  | star : ColumnsSel
  | omitted : ColumnsSel
  | explicit : List String → ColumnsSel
deriving DecidableEq, Repr

/-- `export_table` normalisation: `columns == "*"` becomes `None`. -/
def normalize_columns : ColumnsSel → Option (List String)
  | .star => none
  | .omitted => none
  | .explicit cs => some cs

/-- `GeojsonGenerator._geom_expr`: geometry expression for a geometry
column, with optional reprojection (`ST_Transform`) to a target SRID. -/
def geom_expr (geom_col : String) (target_srid : Option Int) : List SqlPart :=
  match target_srid with
  | none => [.raw "ST_AsGeoJSON(t.", .ident geom_col, .raw ")::jsonb"]
  | some srid =>
      [.raw "ST_AsGeoJSON(ST_Transform(t.", .ident geom_col, .raw ", ",
       .lit (.i srid), .raw "))::jsonb"]

/-- `GeojsonGenerator._props_expr`: `if not columns` (Python falsiness, so
both `None` and the empty list) takes the all-columns branch
`to_jsonb(t) - <geom literal>`; otherwise the explicit subset branch
`to_jsonb((SELECT r FROM (SELECT t.c1, t.c2, ...) r))`. -/
def props_expr (columns : Option (List String)) (geom_col : String) : List SqlPart :=
  match columns with
  | none => [.raw "to_jsonb(t) - ", .lit (.s geom_col)]
  | some [] => [.raw "to_jsonb(t) - ", .lit (.s geom_col)]
  | some cols =>
      [.raw "to_jsonb((SELECT r FROM (SELECT "] ++
        sqlJoin (.raw ", ") (cols.map (fun c => [.raw "t.", .ident c])) ++
        [.raw ") r))"]

/-- The row expression of `_build_query`: the `jsonb_build_object` template
with the geometry expression and COALESCE-wrapped properties expression
substituted in. -/
def feature_expr (columns : Option (List String)) (geom_col : String)
    (target_srid : Option Int) : List SqlPart :=
  [.raw "jsonb_build_object(\x27type\x27,\x27Feature\x27,\x27geometry\x27, "] ++
    geom_expr geom_col target_srid ++
    [.raw ", \x27properties\x27, COALESCE("] ++
    props_expr columns geom_col ++
    [.raw ", \x27\x7b\x7d\x27::jsonb))::text AS feature"]

/-- `GeojsonGenerator._build_query`: the full streaming query, with the
null-geometry guard, optional filter predicate and optional ordering
clause.  The truthiness test `where_sql and where_sql.strip()` is modelled
by `Option` presence plus a `trim`-nonempty check. -/
def build_query (schema table : String) (columns : Option (List String))
    (geom_col : String) (where_sql : Option String) (order_by : Option String)
    (target_srid : Option Int) : List SqlPart :=
  let base :=
    [.raw "SELECT "] ++ feature_expr columns geom_col target_srid ++
      [.raw " FROM ", .ident schema, .raw ".", .ident table,
       .raw " t WHERE t.", .ident geom_col, .raw " IS NOT NULL"]
  let q1 :=
    match where_sql with
    | none => base
    | some w => if w.trim = "" then base else base ++ [.raw " AND (", .raw w, .raw ")"]
  match order_by with
  | none => q1
  | some ob => if ob.trim = "" then q1 else q1 ++ [.raw " ORDER BY ", .raw ob]

/-- `cur.execute(query, where_params or [])` of `export_table`: the query
text and the bind parameters travel as separate components; the parameter
values never enter the query part list. -/
def exec_pair (schema table : String) (columns : Option (List String))
    (geom_col : String) (where_sql : Option String) (order_by : Option String)
    (target_srid : Option Int) (where_params : List SqlVal) :
    List SqlPart × List SqlVal :=
  (build_query schema table columns geom_col where_sql order_by target_srid,
   where_params)

/-- A part mentions a name when it is that identifier or that string
literal. -/
def MentionsName (p : SqlPart) (name : String) : Prop :=
  p = .ident name ∨ p = .lit (.s name)

/-- The fixed raw template strings of `_geom_expr`, `_props_expr` and
`_build_query` — every raw fragment of an assembled query is one of
these, or the caller's filter predicate, or the caller's order-by
fragment. -/
def fixedRawTemplates : List String :=
  ["SELECT ",
   "jsonb_build_object(\x27type\x27,\x27Feature\x27,\x27geometry\x27, ",
   "ST_AsGeoJSON(t.", ")::jsonb",
   "ST_AsGeoJSON(ST_Transform(t.", ", ", "))::jsonb",
   ", \x27properties\x27, COALESCE(",
   "to_jsonb(t) - ",
   "to_jsonb((SELECT r FROM (SELECT ", "t.", ") r))",
   ", \x27\x7b\x7d\x27::jsonb))::text AS feature",
   " FROM ", ".", " t WHERE t.", " IS NOT NULL",
   " AND (", ")", " ORDER BY "]

/-! ## JSON values

A model of the JSON values handled by the engine (jsonb rows, GeoJSON
features, the output document).  Numbers are modelled as integers; this
is enough to exercise every structural aspect (nesting, separators,
string escaping) that the incremental writer is responsible for. -/

inductive Json where
  | null : Json
  | bool : Bool → Json
  | num : Int → Json
  | str : String → Json
  | arr : List Json → Json
  | obj : List (String × Json) → Json
deriving Repr

/-- Decimal digit to character. -/
def dchar : Nat → Char
  | 0 => '0' | 1 => '1' | 2 => '2' | 3 => '3' | 4 => '4'
  | 5 => '5' | 6 => '6' | 7 => '7' | 8 => '8' | _ => '9'

/-- Character to decimal digit value. -/
def dval (c : Char) : Nat := c.toNat - 48

/-- Decimal digit test. -/
def isDig (c : Char) : Bool := 48 ≤ c.toNat && c.toNat ≤ 57

/-- Decimal rendering of a natural number. -/
def renderNat (n : Nat) : List Char :=
  if n = 0 then ['0'] else (Nat.digits 10 n).reverse.map dchar

/-- Decimal rendering of an integer. -/
def renderInt (i : Int) : List Char :=
  if i < 0 then '-' :: renderNat i.natAbs else renderNat i.toNat

/-- JSON string-content escaping: quote and backslash get a backslash. -/
def esc : List Char → List Char
  | [] => []
  | c :: cs => if c = '"' ∨ c = '\\' then '\\' :: c :: esc cs else c :: esc cs

mutual

/-- Compact serialization of a JSON value. -/
def render : Json → List Char
  | .null => "null".data
  | .bool true => "true".data
  | .bool false => "false".data
  | .num i => renderInt i
  | .str s => '"' :: (esc s.data ++ ['"'])
  | .arr vs => '[' :: (renderInner vs ++ [']'])
  | .obj ms => '\x7b' :: (renderMInner ms ++ ['\x7d'])

/-- Serialization of array elements (no brackets). -/
def renderInner : List Json → List Char
  | [] => []
  | v :: vs => render v ++ renderTailL vs

/-- Serialization of array elements after the first (leading commas). -/
def renderTailL : List Json → List Char
  | [] => []
  | v :: vs => ',' :: (render v ++ renderTailL vs)

/-- Serialization of object members (no braces). -/
def renderMInner : List (String × Json) → List Char
  | [] => []
  | m :: ms => renderMember m ++ renderMTailL ms

/-- Serialization of object members after the first (leading commas). -/
def renderMTailL : List (String × Json) → List Char
  | [] => []
  | m :: ms => ',' :: (renderMember m ++ renderMTailL ms)

/-- Serialization of one `key:value` member. -/
def renderMember : String × Json → List Char
  | (k, v) => '"' :: (esc k.data ++ '"' :: ':' :: render v)

end

/-- Serialization as a `String`. -/
def renderStr (v : Json) : String := ⟨render v⟩

/-- Whether a JSON value is an object. -/
def isObjB : Json → Bool
  | .obj _ => true
  | _ => false

/-! ## Semantics of the properties expression

PostgreSQL semantics of the two `_props_expr` branches, over a row given
by the table's column list and a column-to-jsonb valuation:
`to_jsonb(t)` yields the object with one key per table column, and
`- <key>` deletes that key; the subset branch
`to_jsonb((SELECT r FROM (SELECT t.c1, ...) r))` yields the object whose
keys are exactly the selected columns. -/

/-- The keys of the properties object produced by each branch. -/
def props_keys (columns : Option (List String)) (geom_col : String)
    (table_cols : List String) : List String :=
  match columns with
  | none => table_cols.filter (fun c => c ≠ geom_col)
  | some [] => table_cols.filter (fun c => c ≠ geom_col)
  | some cols => cols

/-- The properties object produced by each branch. -/
def props_value (columns : Option (List String)) (geom_col : String)
    (table_cols : List String) (row : String → Json) : Json :=
  .obj ((props_keys columns geom_col table_cols).map (fun c => (c, row c)))

/-- SQL `COALESCE` on a possibly-NULL jsonb value (`none` = SQL NULL). -/
def coalesceJ (p : Option Json) (dflt : Json) : Json := p.getD dflt

/-- Semantics of the `jsonb_build_object` row expression: fixed keys
`type`, `geometry`, `properties`, the properties slot COALESCEd with the
empty object. -/
def feature_value (geom_v : Json) (props_v : Option Json) : Json :=
  .obj [("type", .str "Feature"), ("geometry", geom_v),
        ("properties", coalesceJ props_v (.obj []))]

/-- Key lookup in a JSON object. -/
def objLookup (k : String) : Json → Option Json
  | .obj ms => (ms.find? (fun m => m.1 == k)).map (fun m => m.2)
  | _ => none

/-! ## The export engine

`export_table` is modelled as a pure function of the environment the
database and file system present to one run: the outcome of the
`COUNT(*)` query, the stream of fetched rows (each row is the single
`feature` column, `none` for a SQL NULL feature text), and a fault point
saying which operation, if any, raises.  Resource handling is recorded as
an event trace. -/

/-- Which operation of one export run raises (`noFail`: none).  A count
failure is not listed here: `export_table` catches it locally, so it is
an input (`countOutcome`), not a fault abort. -/
inductive FailPoint where
  | noFail : FailPoint
  | execF : FailPoint
  | openF : FailPoint
  | fetchF : FailPoint
  | writeF : FailPoint
deriving DecidableEq, Repr

/-- Resource events of one export run, in order. -/
inductive Ev where
  | connect : Ev
  | connClose : Ev
  | curOpen : Ev
  | curClose : Ev
deriving DecidableEq, Repr

/-- State of the incremental writer loop: accumulated feature section of
the file, the `first` flag, the written counter and the emitted progress
records `(written, total)`. -/
structure LoopSt where
  body : String
  first : Bool
  written : Nat
  progress : List (Nat × Nat)
deriving Repr

/-- Python truthiness of `total` (`None` and `0` are falsy). -/
def totTruthy : Option Nat → Bool
  | none => false
  | some n => n != 0

/-- One row of the inner `for (feature_text,) in rows` loop: skip a NULL
feature text; otherwise write the separating comma unless first, then a
newline, then the feature text verbatim; bump the counter; emit a
progress record when `total and self.show_progress and
written % self.batch_size == 0`. -/
def rowStep (showP : Bool) (batch : Nat) (total : Option Nat)
    (st : LoopSt) (r : Option String) : LoopSt :=
  match r with
  | none => st
  | some t =>
      let body := st.body ++ (if st.first then "" else ",") ++ "\n" ++ t
      let written := st.written + 1
      let progress :=
        if totTruthy total && showP && (written % batch == 0) then
          st.progress ++ [(written, total.getD 0)]
        else st.progress
      { body := body, first := false, written := written, progress := progress }

/-- The `while True: rows = cur.fetchmany(batch_size)` loop: fetch the
next batch (a `take`), stop when it is empty, otherwise process every
row of the batch and continue on the remainder. -/
def stream_loop (showP : Bool) (batch : Nat) (total : Option Nat)
    (rows : List (Option String)) (st : LoopSt) : LoopSt :=
  if h : rows.take batch = [] then st
  else
    stream_loop showP batch total (rows.drop batch)
      ((rows.take batch).foldl (rowStep showP batch total) st)
termination_by rows.length
decreasing_by
  rw [List.take_eq_nil_iff] at h
  push_neg at h
  have hl : 0 < rows.length := List.length_pos.mpr h.2
  have hb : 0 < batch := Nat.pos_of_ne_zero h.1
  simp only [List.length_drop]
  exact Nat.sub_lt hl hb

/-- The literal FeatureCollection opening written once at export start. -/
def fcHead : String := "\x7b\"type\":\"FeatureCollection\",\"features\":["

/-- The literal closing written at export end (a newline, then `]` `\x7d`). -/
def fcClose : String := "\n]\x7d"

/-- Result of one `export_table` run: the output file content (`none`
when the file was never opened), the resource event trace, whether the
run completed (`ok = false`: the fault propagated to the caller), the
total used for progress, the written count, the in-loop progress records
and the final `done` line data. -/
structure ExportResult where
  file : Option String
  events : List Ev
  ok : Bool
  totalUsed : Option Nat
  written : Nat
  progress : List (Nat × Nat)
  doneLine : Option (Nat × Option Nat)
deriving Repr

/-- `GeojsonGenerator.export_table` on one table.  Control flow of the
source: connect (context manager, so `conn.close()` runs on every exit);
if `show_progress`, run the count query and catch any error (`total`
stays `None`); open the named cursor; execute the query; open the output
file (`with`, closed on every exit of the block); write the opening;
stream the batches; write the closing; print the done line; `cur.close()`
— reached only when nothing raised.  A fault at `execF`/`openF`/`fetchF`/
`writeF` propagates: the trace then ends with `connClose` alone, without
`curClose`. -/
def export_table (showP : Bool) (batch : Nat) (countOutcome : Except Unit Nat)
    (rows : List (Option String)) (fp : FailPoint) : ExportResult :=
  let total : Option Nat :=
    if showP then
      match countOutcome with
      | .ok n => some n
      | .error _ => none
    else none
  match fp with
  | .execF =>
      { file := none, events := [.connect, .curOpen, .connClose], ok := false,
        totalUsed := total, written := 0, progress := [], doneLine := none }
  | .openF =>
      { file := none, events := [.connect, .curOpen, .connClose], ok := false,
        totalUsed := total, written := 0, progress := [], doneLine := none }
  | .fetchF =>
      { file := some fcHead, events := [.connect, .curOpen, .connClose],
        ok := false, totalUsed := total, written := 0, progress := [],
        doneLine := none }
  | .writeF =>
      { file := some fcHead, events := [.connect, .curOpen, .connClose],
        ok := false, totalUsed := total, written := 0, progress := [],
        doneLine := none }
  | .noFail =>
      let st := stream_loop showP batch total rows
        { body := "", first := true, written := 0, progress := [] }
      { file := some (fcHead ++ st.body ++ fcClose),
        events := [.connect, .curOpen, .curClose, .connClose], ok := true,
        totalUsed := total, written := st.written, progress := st.progress,
        doneLine := if showP then some (st.written, total) else none }

/-- The output file content of a run (empty when no file was created). -/
def fileOf (r : ExportResult) : String := r.file.getD ""

/-- One item of an `export_many` batch: the per-table environment. -/
structure ExportItem where
  countOutcome : Except Unit Nat
  rows : List (Option String)
  fp : FailPoint

/-- `GeojsonGenerator.export_many`: invoke `export_table` per item, in
list order; there is no `try`/`except`, so the first failing export
propagates and the remaining items are not attempted. -/
def export_many (showP : Bool) (batch : Nat) : List ExportItem → List ExportResult
  | [] => []
  | it :: rest =>
      let r := export_table showP batch it.countOutcome it.rows it.fp
      if r.ok then r :: export_many showP batch rest else [r]

/-- The FeatureCollection document holding the given features. -/
def fcJson (vs : List Json) : Json :=
  .obj [("type", .str "FeatureCollection"), ("features", .arr vs)]

/-! ## A JSON parser

A recursive-descent JSON parser over character lists, used to state that
the written file parses as a FeatureCollection.  Recursion is structural
on a fuel argument; the roundtrip lemmas below show any fuel of the form
`need + extra` suffices, and `parseJson` supplies a fuel large enough for
every input (established for the export file in the C3 theorem). -/

/-- JSON whitespace. -/
def isWsC (c : Char) : Bool := c = ' ' || c = '\n' || c = '\t' || c = '\r'

/-- Drop leading whitespace. -/
def skipWs : List Char → List Char
  | [] => []
  | c :: cs => if isWsC c then skipWs cs else c :: cs

/-- Parse the content of a string literal after the opening quote,
undoing the `esc` escapes, up to the closing quote. -/
def parseStrBody : List Char → Option (List Char × List Char)
  | [] => none
  | c :: cs =>
      if c = '"' then some ([], cs)
      else if c = '\\' then
        match cs with
        | [] => none
        | d :: cs2 => (parseStrBody cs2).map (fun r => (d :: r.1, r.2))
      else (parseStrBody cs).map (fun r => (c :: r.1, r.2))

/-- Consume a maximal run of decimal digits, accumulating their value. -/
def parseDigits : List Char → Nat → Nat × List Char
  | [], acc => (acc, [])
  | c :: cs, acc =>
      if isDig c then parseDigits cs (acc * 10 + dval c) else (acc, c :: cs)

/-- Parse a nonempty run of decimal digits. -/
def parseNat1 : List Char → Option (Nat × List Char)
  | [] => none
  | c :: cs => if isDig c then some (parseDigits cs (dval c)) else none

/-- Parser modes: one value, array elements at the opening, array
elements after one element, object members at the opening, object
members after one member. -/
inductive PMode where
  | val | elems | elemsTail | members | membersTail
deriving DecidableEq, Repr

/-- Parser results (value, element list, or member list). -/
inductive PRes where
  | v : Json → PRes
  | vs : List Json → PRes
  | ms : List (String × Json) → PRes
deriving Repr

/-- The parser.  Fuel is spent once per mode dispatch. -/
def parseA : Nat → PMode → List Char → Option (PRes × List Char)
  | 0, _, _ => none
  | fuel + 1, .val, input =>
      match skipWs input with
      | [] => none
      | c :: rest =>
          if c = '"' then
            (parseStrBody rest).map (fun r => (.v (.str ⟨r.1⟩), r.2))
          else if c = '\x7b' then
            match parseA fuel .members rest with
            | some (.ms ms, r) => some (.v (.obj ms), r)
            | _ => none
          else if c = '[' then
            match parseA fuel .elems rest with
            | some (.vs vs, r) => some (.v (.arr vs), r)
            | _ => none
          else if c = 't' then
            match rest with
            | 'r' :: 'u' :: 'e' :: r => some (.v (.bool true), r)
            | _ => none
          else if c = 'f' then
            match rest with
            | 'a' :: 'l' :: 's' :: 'e' :: r => some (.v (.bool false), r)
            | _ => none
          else if c = 'n' then
            match rest with
            | 'u' :: 'l' :: 'l' :: r => some (.v .null, r)
            | _ => none
          else if c = '-' then
            (parseNat1 rest).map (fun r => (.v (.num (-(r.1 : Int))), r.2))
          else if isDig c then
            (parseNat1 (c :: rest)).map (fun r => (.v (.num (r.1 : Int)), r.2))
          else none
  | fuel + 1, .elems, input =>
      match skipWs input with
      | [] => none
      | c :: rest =>
          if c = ']' then some (.vs [], rest)
          else
            match parseA fuel .val (c :: rest) with
            | some (.v v, r) =>
                match parseA fuel .elemsTail r with
                | some (.vs vs, r2) => some (.vs (v :: vs), r2)
                | _ => none
            | _ => none
  | fuel + 1, .elemsTail, input =>
      match skipWs input with
      | ']' :: rest => some (.vs [], rest)
      | ',' :: rest =>
          match parseA fuel .val rest with
          | some (.v v, r) =>
              match parseA fuel .elemsTail r with
              | some (.vs vs, r2) => some (.vs (v :: vs), r2)
              | _ => none
          | _ => none
      | _ => none
  | fuel + 1, .members, input =>
      match skipWs input with
      | [] => none
      | c :: rest =>
          if c = '\x7d' then some (.ms [], rest)
          else if c = '"' then
            match parseStrBody rest with
            | none => none
            | some (k, r1) =>
                match skipWs r1 with
                | ':' :: r2 =>
                    match parseA fuel .val r2 with
                    | some (.v v, r3) =>
                        match parseA fuel .membersTail r3 with
                        | some (.ms ms, r4) => some (.ms ((⟨k⟩, v) :: ms), r4)
                        | _ => none
                    | _ => none
                | _ => none
          else none
  | fuel + 1, .membersTail, input =>
      match skipWs input with
      | '\x7d' :: rest => some (.ms [], rest)
      | ',' :: rest =>
          match skipWs rest with
          | '"' :: r0 =>
              match parseStrBody r0 with
              | none => none
              | some (k, r1) =>
                  match skipWs r1 with
                  | ':' :: r2 =>
                      match parseA fuel .val r2 with
                      | some (.v v, r3) =>
                          match parseA fuel .membersTail r3 with
                          | some (.ms ms, r4) => some (.ms ((⟨k⟩, v) :: ms), r4)
                          | _ => none
                      | _ => none
                  | _ => none
          | _ => none
      | _ => none

/-- Parse one JSON value. -/
def parseVal (fuel : Nat) (input : List Char) : Option (Json × List Char) :=
  match parseA fuel .val input with
  | some (.v v, r) => some (v, r)
  | _ => none

/-- Parse a whole string as a single JSON document (only whitespace may
follow the value). -/
def parseJson (s : String) : Option Json :=
  match parseVal (2 * s.data.length + 8) s.data with
  | some (v, r) => if skipWs r = [] then some v else none
  | none => none

/-- Concatenation of a list of strings. -/
def catS : List String → String
  | [] => ""
  | s :: ss => s ++ catS ss

/-- The feature section of the output file for the emitted feature
texts: a newline before every feature, a comma before every feature but
the first. -/
def featBody : List String → String
  | [] => ""
  | t :: ts => "\n" ++ t ++ catS (ts.map (fun t2 => ",\n" ++ t2))

mutual

/-- Fuel needed to parse the compact rendering of a value. -/
def needV : Json → Nat
  | .arr vs => 1 + needE vs
  | .obj ms => 1 + needM ms
  | _ => 1

/-- Fuel needed in `elems` mode for a rendered element list. -/
def needE : List Json → Nat
  | [] => 1
  | v :: vs => 1 + needV v + needT vs

/-- Fuel needed in `elemsTail` mode for a rendered element tail. -/
def needT : List Json → Nat
  | [] => 1
  | v :: vs => 1 + needV v + needT vs

/-- Fuel needed in `members` mode for a rendered member list. -/
def needM : List (String × Json) → Nat
  | [] => 1
  | m :: ms => 1 + needV m.2 + needMT ms

/-- Fuel needed in `membersTail` mode for a rendered member tail. -/
def needMT : List (String × Json) → Nat
  | [] => 1
  | m :: ms => 1 + needV m.2 + needMT ms

end

/-- The next character, if any, is not a decimal digit (delimiter
condition for maximal-munch number parsing). -/
def headNotDig : List Char → Prop
  | [] => True
  | c :: _ => isDig c = false

/-- Number-delimiter side condition of the roundtrip lemma: only a
rendered number needs its right context to not start with a digit. -/
def numOk : Json → List Char → Prop
  | .num _, rest => headNotDig rest
  | _, _ => True

/-- Character form of the feature section after the first feature: a
comma, a newline and the feature text, repeated. -/
def tailChars : List String → List Char
  | [] => []
  | t :: ts => ',' :: '\n' :: (t.data ++ tailChars ts)

/-! ## Lemmas about the streaming loop -/

theorem stream_loop_eq_foldl (showP : Bool) (batch : Nat) (total : Option Nat)
    (hb : 0 < batch) (rows : List (Option String)) (st : LoopSt) :
    stream_loop showP batch total rows st =
      rows.foldl (rowStep showP batch total) st := by
  have key : ∀ (n : Nat) (rows : List (Option String)) (st : LoopSt),
      rows.length ≤ n →
      stream_loop showP batch total rows st =
        rows.foldl (rowStep showP batch total) st := by
    intro n
    induction n with
    | zero =>
        intro rows st hlen
        have hnil : rows = [] := List.length_eq_zero.mp (Nat.le_zero.mp hlen)
        subst hnil
        rw [stream_loop]
        simp
    | succ n ih =>
        intro rows st hlen
        rw [stream_loop]
        by_cases h : rows.take batch = []
        · have hnil : rows = [] := by
            rcases List.take_eq_nil_iff.mp h with h1 | h1
            · omega
            · exact h1
          subst hnil
          simp [h]
        · rw [dif_neg h]
          have hne : rows ≠ [] := by
            intro hr; exact h (by simp [hr])
          have hlen2 : (rows.drop batch).length ≤ n := by
            have : 1 ≤ rows.length := by
              cases rows with
              | nil => exact absurd rfl hne
              | cons a l => simp
            simp only [List.length_drop]
            omega
          rw [ih (rows.drop batch) _ hlen2]
          rw [← List.foldl_append, List.take_append_drop]
  exact key rows.length rows st le_rfl

theorem foldl_rowStep_ext (rows : List (Option String)) :
    ∀ (p₁ p₂ : Bool) (b₁ b₂ : Nat) (t₁ t₂ : Option Nat) (st₁ st₂ : LoopSt),
      st₁.body = st₂.body → st₁.first = st₂.first →
      (rows.foldl (rowStep p₁ b₁ t₁) st₁).body =
          (rows.foldl (rowStep p₂ b₂ t₂) st₂).body ∧
        (rows.foldl (rowStep p₁ b₁ t₁) st₁).first =
          (rows.foldl (rowStep p₂ b₂ t₂) st₂).first := by
  induction rows with
  | nil =>
      intro _ _ _ _ _ _ _ _ hb hf
      exact ⟨hb, hf⟩
  | cons r rest ih =>
      intro p₁ p₂ b₁ b₂ t₁ t₂ st₁ st₂ hb hf
      simp only [List.foldl_cons]
      apply ih
      · cases r with
        | none => simpa [rowStep]
        | some t => simp [rowStep, hb, hf]
      · cases r with
        | none => simpa [rowStep]
        | some t => simp [rowStep]

theorem stream_loop_zero (p : Bool) (t : Option Nat)
    (rows : List (Option String)) (st : LoopSt) :
    stream_loop p 0 t rows st = st := by
  rw [stream_loop]
  simp

theorem stream_loop_body_ext (batch : Nat) (rows : List (Option String))
    (p₁ p₂ : Bool) (t₁ t₂ : Option Nat) (st : LoopSt) :
    (stream_loop p₁ batch t₁ rows st).body =
      (stream_loop p₂ batch t₂ rows st).body := by
  rcases Nat.eq_zero_or_pos batch with hb | hb
  · subst hb
    rw [stream_loop_zero, stream_loop_zero]
  · rw [stream_loop_eq_foldl _ _ _ hb, stream_loop_eq_foldl _ _ _ hb]
    exact (foldl_rowStep_ext rows p₁ p₂ batch batch t₁ t₂ st st rfl rfl).1

theorem foldl_rowStep_body_notFirst (rows : List (Option String)) :
    ∀ (p : Bool) (b : Nat) (t : Option Nat) (st : LoopSt), st.first = false →
      (rows.foldl (rowStep p b t) st).body =
        st.body ++ catS ((rows.filterMap id).map (fun t2 => ",\n" ++ t2)) := by
  induction rows with
  | nil =>
      intro p b t st hf
      simp [catS]
  | cons r rest ih =>
      intro p b t st hf
      cases r with
      | none =>
          simp only [List.foldl_cons, List.filterMap_cons]
          rw [show rowStep p b t st none = st from rfl]
          exact ih p b t st hf
      | some s =>
          simp only [List.foldl_cons, List.filterMap_cons]
          rw [ih p b t _ (by simp [rowStep])]
          simp [rowStep, hf, catS, String.append_assoc]

theorem foldl_rowStep_body (rows : List (Option String)) (p : Bool) (b : Nat)
    (t : Option Nat) :
    (rows.foldl (rowStep p b t)
        { body := "", first := true, written := 0, progress := [] }).body =
      featBody (rows.filterMap id) := by
  induction rows with
  | nil => simp [featBody]
  | cons r rest ih =>
      cases r with
      | none =>
          simp only [List.foldl_cons, List.filterMap_cons]
          rw [show rowStep p b t _ none = _ from rfl]
          exact ih
      | some s =>
          simp only [List.foldl_cons, List.filterMap_cons]
          rw [foldl_rowStep_body_notFirst rest p b t _ (by simp [rowStep])]
          simp [rowStep, featBody]

theorem export_file_noFail (showP : Bool) (batch : Nat)
    (countOutcome : Except Unit Nat) (rows : List (Option String))
    (hb : 0 < batch) :
    (export_table showP batch countOutcome rows .noFail).file =
      some (fcHead ++ featBody (rows.filterMap id) ++ fcClose) := by
  show some _ = some _
  rw [stream_loop_eq_foldl _ _ _ hb, foldl_rowStep_body]

theorem stream_loop_nil (p : Bool) (b : Nat) (t : Option Nat) (st : LoopSt) :
    stream_loop p b t [] st = st := by
  rw [stream_loop]
  simp

/-! ## Claims C2, C4, C5, C6, C9, C10 -/

/-- Claim C2 counterexample: an export of zero rows does not write
exactly `\x7b"type":"FeatureCollection","features":[]\x7d`; the written
file has one extra byte (the newline written before the closing `]`). -/
theorem c2_counterexample :
    fileOf (export_table true 10 (.ok 0) [] .noFail) ≠
      "\x7b\"type\":\"FeatureCollection\",\"features\":[]\x7d" := by
  have h := export_file_noFail true 10 (.ok 0) [] (by omega)
  simp only [fileOf, h, Option.getD_some]
  decide

/-- Claim C2 (amended): an export whose query returns zero rows writes
the literal opening, then a single newline, then the literal closing
`]\x7d` — the claimed content with one newline inserted before `]`. -/
theorem c2_empty_export (showP : Bool) (batch : Nat) (c : Except Unit Nat) :
    fileOf (export_table showP batch c [] .noFail) =
      "\x7b\"type\":\"FeatureCollection\",\"features\":[\n]\x7d" := by
  simp only [export_table, fileOf]
  rw [stream_loop_nil]
  decide

/-- Claim C4 counterexample: when query execution raises, the error
propagates with the connection closed but the named cursor never
explicitly closed — `cur.close()` is not in a `finally`-equivalent. -/
theorem c4_counterexample :
    (export_table true 10 (.ok 5) [] .execF).ok = false ∧
      Ev.connClose ∈ (export_table true 10 (.ok 5) [] .execF).events ∧
      Ev.curClose ∉ (export_table true 10 (.ok 5) [] .execF).events := by
  refine ⟨rfl, by simp [export_table], by simp [export_table]⟩

/-- Claim C4 (amended): the database connection is closed on every exit
path, and that close is the final action (the context-manager `finally`);
the named cursor is explicitly closed only on the normal-completion path,
and on every fault path no cursor close occurs before the error
propagates. -/
theorem c4_resource_closing (showP : Bool) (batch : Nat)
    (c : Except Unit Nat) (rows : List (Option String)) (fp : FailPoint) :
    ((export_table showP batch c rows fp).events.getLast? = some Ev.connClose) ∧
      (Ev.connect ∈ (export_table showP batch c rows fp).events) ∧
      (fp = .noFail → Ev.curClose ∈ (export_table showP batch c rows fp).events) ∧
      (fp ≠ .noFail → Ev.curClose ∉ (export_table showP batch c rows fp).events) := by
  cases fp <;> simp [export_table]

/-- Witness for the amended C4 at a concrete run. -/
theorem c4_resource_closing_witness :
    Ev.curClose ∈ (export_table true 10 (.ok 5) [] .noFail).events :=
  (c4_resource_closing true 10 (.ok 5) [] .noFail).2.2.1 rfl

/-- Claim C5: an error of the row-count query is recovered locally: the
run completes, the total degrades to unknown (`none`), and the output
file equals that of a run whose count query returned any total `n`. -/
theorem c5_count_error_recovery (batch : Nat) (rows : List (Option String))
    (n : Nat) :
    (export_table true batch (.error ()) rows .noFail).ok = true ∧
      (export_table true batch (.error ()) rows .noFail).totalUsed = none ∧
      (export_table true batch (.error ()) rows .noFail).file =
        (export_table true batch (.ok n) rows .noFail).file := by
  refine ⟨rfl, rfl, ?_⟩
  rw [show (export_table true batch (.error ()) rows .noFail).file =
        some (fcHead ++ (stream_loop true batch none rows
          { body := "", first := true, written := 0, progress := [] }).body ++
          fcClose) from rfl,
      show (export_table true batch (.ok n) rows .noFail).file =
        some (fcHead ++ (stream_loop true batch (some n) rows
          { body := "", first := true, written := 0, progress := [] }).body ++
          fcClose) from rfl]
  rw [stream_loop_body_ext batch rows true true none (some n)]

/-- Claim C6: batch size never influences the output file: two runs over
the same row stream with any two positive batch sizes write identical
files. -/
theorem c6_batch_size_irrelevant (showP : Bool) (b₁ b₂ : Nat)
    (hb₁ : 0 < b₁) (hb₂ : 0 < b₂) (c : Except Unit Nat)
    (rows : List (Option String)) :
    (export_table showP b₁ c rows .noFail).file =
      (export_table showP b₂ c rows .noFail).file := by
  rw [export_file_noFail _ _ _ _ hb₁, export_file_noFail _ _ _ _ hb₂]

/-- Witness for C6 at concrete batch sizes 1 and 100. -/
theorem c6_batch_size_irrelevant_witness :
    (export_table true 1 (.ok 2) [some "f1", some "f2"] .noFail).file =
      (export_table true 100 (.ok 2) [some "f1", some "f2"] .noFail).file :=
  c6_batch_size_irrelevant true 1 100 (by omega) (by omega) (.ok 2)
    [some "f1", some "f2"]

/-- Claim C9: the batch runner invokes the single-table export per item
in list order; every item before the first failure is exported, the
first failing export's error propagates (its result is last), and no
later item is attempted. -/
theorem c9_batch_runner (showP : Bool) (batch : Nat) (items : List ExportItem) :
    export_many showP batch items =
      ((items.takeWhile (fun it =>
          (export_table showP batch it.countOutcome it.rows it.fp).ok)).map
        (fun it => export_table showP batch it.countOutcome it.rows it.fp)) ++
      (match items.dropWhile (fun it =>
          (export_table showP batch it.countOutcome it.rows it.fp).ok) with
       | [] => []
       | bad :: _ =>
           [export_table showP batch bad.countOutcome bad.rows bad.fp]) := by
  induction items with
  | nil => rfl
  | cons it rest ih =>
      by_cases h : (export_table showP batch it.countOutcome it.rows it.fp).ok = true
      · simp [export_many, h, List.takeWhile_cons, List.dropWhile_cons, ih]
      · simp [export_many, h, List.takeWhile_cons, List.dropWhile_cons]

/-- Claim C10: the bytes of the output file are independent of
`show_progress` and of the outcome of the row-count query: progress
state feeds only the diagnostic records, never the file. -/
theorem c10_progress_noninterference (sp₁ sp₂ : Bool)
    (c₁ c₂ : Except Unit Nat) (batch : Nat) (rows : List (Option String)) :
    (export_table sp₁ batch c₁ rows .noFail).file =
      (export_table sp₂ batch c₂ rows .noFail).file := by
  simp only [export_table]
  rw [stream_loop_body_ext batch rows sp₁ sp₂]

/-! ## Claims C1, C7, C8 -/

/-- Claim C1 counterexample: with geometry column `geom` and the explicit
list `["id", "geom"]`, the explicit-list branch selects the geometry
column (`t."geom"` is referenced) and the resulting properties object has
`geom` among its keys — the geometry column is not excluded there. -/
theorem c1_counterexample :
    props_expr (some ["id", "geom"]) "geom" =
      [.raw "to_jsonb((SELECT r FROM (SELECT ", .raw "t.", .ident "id",
       .raw ", ", .raw "t.", .ident "geom", .raw ") r))"] ∧
      "geom" ∈ props_keys (some ["id", "geom"]) "geom" ["id", "geom"] := by
  exact ⟨rfl, by decide⟩

/-- Claim C1 (amended): in the all-columns branch (omitted list, the
`"*"` sentinel — both normalised to `None` — or an empty list) the
geometry column is never a key of the properties object; in the
explicit-list branch the keys are exactly the caller's columns, so the
geometry column is absent if and only if the caller leaves it out. -/
theorem c1_geom_exclusion (g : String) (tcols : List String) :
    (g ∉ props_keys none g tcols) ∧
      (g ∉ props_keys (some []) g tcols) ∧
      (∀ cols : List String, cols ≠ [] → props_keys (some cols) g tcols = cols) := by
  refine ⟨?_, ?_, ?_⟩
  · simp [props_keys]
  · simp [props_keys]
  · intro cols hc
    cases cols with
    | nil => exact absurd rfl hc
    | cons c cs => rfl

/-- Witness for the amended C1 at a concrete explicit list. -/
theorem c1_geom_exclusion_witness :
    props_keys (some ["id", "name"]) "geom" ["id", "name", "geom"] = ["id", "name"] :=
  (c1_geom_exclusion "geom" ["id", "name", "geom"]).2.2 ["id", "name"] (by decide)

theorem raw_mem_geom_expr (s g : String) (srid : Option Int)
    (h : SqlPart.raw s ∈ geom_expr g srid) : s ∈ fixedRawTemplates := by
  cases srid with
  | none =>
      simp [geom_expr] at h
      rcases h with rfl | rfl <;> simp [fixedRawTemplates]
  | some v =>
      simp [geom_expr] at h
      rcases h with rfl | rfl | rfl <;> simp [fixedRawTemplates]

theorem raw_mem_sqlJoin (s : String) (cols : List String)
    (h : SqlPart.raw s ∈
      sqlJoin (.raw ", ") (cols.map (fun c => [.raw "t.", .ident c]))) :
    s = "t." ∨ s = ", " := by
  induction cols with
  | nil => simp [sqlJoin] at h
  | cons a rest ih =>
      cases rest with
      | nil =>
          simp [sqlJoin] at h
          exact Or.inl h
      | cons b rest2 =>
          simp only [List.map_cons, sqlJoin, List.mem_append, List.mem_cons] at h
          rcases h with h | h | h
          · simp at h
            exact Or.inl h
          · injection h with h
            exact Or.inr h
          · exact ih (by simpa [sqlJoin] using h)

theorem raw_mem_props_expr (s : String) (columns : Option (List String))
    (g : String) (h : SqlPart.raw s ∈ props_expr columns g) :
    s ∈ fixedRawTemplates := by
  match columns with
  | none =>
      simp [props_expr] at h
      subst h
      simp [fixedRawTemplates]
  | some [] =>
      simp [props_expr] at h
      subst h
      simp [fixedRawTemplates]
  | some (c :: cs) =>
      simp only [props_expr, List.mem_append, List.mem_singleton] at h
      rcases h with (h | h) | h
      · simp at h
        subst h
        simp [fixedRawTemplates]
      · rcases raw_mem_sqlJoin s (c :: cs) h with rfl | rfl <;>
          simp [fixedRawTemplates]
      · injection h with h
        subst h
        simp [fixedRawTemplates]

theorem raw_mem_feature_expr (s : String) (columns : Option (List String))
    (g : String) (srid : Option Int)
    (h : SqlPart.raw s ∈ feature_expr columns g srid) :
    s ∈ fixedRawTemplates := by
  simp only [feature_expr, List.mem_append, List.mem_singleton] at h
  rcases h with (((h | h) | h) | h) | h
  · simp at h
    subst h
    simp [fixedRawTemplates]
  · exact raw_mem_geom_expr s g srid h
  · simp at h
    subst h
    simp [fixedRawTemplates]
  · exact raw_mem_props_expr s columns g h
  · injection h with h
    subst h
    simp [fixedRawTemplates]

theorem build_query_eq_base_append (schema table g : String)
    (columns : Option (List String)) (w ob : Option String) (srid : Option Int) :
    build_query schema table columns g w ob srid =
      ([SqlPart.raw "SELECT "] ++ feature_expr columns g srid ++
        [SqlPart.raw " FROM ", .ident schema, .raw ".", .ident table,
         .raw " t WHERE t.", .ident g, .raw " IS NOT NULL"]) ++
      ((match w with
        | none => []
        | some w0 =>
            if w0.trim = "" then []
            else [SqlPart.raw " AND (", .raw w0, .raw ")"]) ++
       (match ob with
        | none => []
        | some ob0 =>
            if ob0.trim = "" then []
            else [SqlPart.raw " ORDER BY ", .raw ob0])) := by
  simp only [build_query]
  cases ob with
  | none =>
      cases w with
      | none => simp
      | some w0 =>
          by_cases hw : w0.trim = "" <;> simp [hw]
  | some ob0 =>
      cases w with
      | none =>
          by_cases hob : ob0.trim = "" <;> simp [hob]
      | some w0 =>
          by_cases hw : w0.trim = "" <;> by_cases hob : ob0.trim = "" <;>
            simp [hw, hob, List.append_assoc]

theorem ident_mem_sqlJoin (c : String) (cols : List String) (h : c ∈ cols) :
    SqlPart.ident c ∈
      sqlJoin (.raw ", ") (cols.map (fun c => [.raw "t.", .ident c])) := by
  induction cols with
  | nil => cases h
  | cons a rest ih =>
      cases rest with
      | nil =>
          simp only [List.mem_singleton] at h
          subst h
          simp [sqlJoin]
      | cons b rest2 =>
          rcases List.mem_cons.mp h with rfl | h2
          · simp [sqlJoin]
          · simp only [List.map_cons, sqlJoin]
            refine List.mem_append_right _ ?_
            refine List.mem_cons_of_mem _ ?_
            simpa [sqlJoin] using ih h2

/-- Claim C7 counterexample: in the all-columns branch the geometry
column name enters the assembled query as a value literal
(`sql.Literal(geom_col)` in `to_jsonb(t) - ...`), which is not the
identifier-quoted form — so "schema, table, geometry column, and every
explicit property column appear only in identifier-quoted form" fails on
the code as stated. -/
theorem c7_counterexample :
    SqlPart.lit (.s "geom") ∈ build_query "public" "t1" none "geom" none none none ∧
      MentionsName (SqlPart.lit (.s "geom")) "geom" ∧
      SqlPart.lit (.s "geom") ≠ SqlPart.ident "geom" := by
  refine ⟨by decide, Or.inr rfl, by decide⟩

/-- Claim C7 (amended): every identifier position is identifier-quoted —
`ident schema`, `ident table` and `ident geom_col` occur in every
assembled query, and each explicit property column occurs as an `ident`
part; the raw (unquoted) fragments of the query are only the fixed
template strings plus the caller's filter and order-by fragments, so the
identifiers are never raw-concatenated (the geometry column additionally
occurs as a safely value-quoted `sql.Literal` in the all-columns branch,
per the counterexample); and the filter's literal values are passed to
execution as bind parameters beside a query text that does not depend on
them. -/
theorem c7_identifier_hygiene (schema table g : String)
    (columns : Option (List String)) (w ob : Option String) (srid : Option Int)
    (params params2 : List SqlVal) :
    (SqlPart.ident schema ∈ build_query schema table columns g w ob srid) ∧
      (SqlPart.ident table ∈ build_query schema table columns g w ob srid) ∧
      (SqlPart.ident g ∈ build_query schema table columns g w ob srid) ∧
      (∀ cols : List String, columns = some cols → ∀ c ∈ cols,
        SqlPart.ident c ∈ build_query schema table columns g w ob srid) ∧
      (∀ s : String, SqlPart.raw s ∈ build_query schema table columns g w ob srid →
        s ∈ fixedRawTemplates ∨ (∃ w0, w = some w0 ∧ s = w0) ∨
          (∃ ob0, ob = some ob0 ∧ s = ob0)) ∧
      ((exec_pair schema table columns g w ob srid params).2 = params ∧
        (exec_pair schema table columns g w ob srid params).1 =
          (exec_pair schema table columns g w ob srid params2).1) := by
  rw [build_query_eq_base_append]
  refine ⟨?_, ?_, ?_, ?_, ?_, rfl, rfl⟩
  · exact List.mem_append_left _ (by simp)
  · exact List.mem_append_left _ (by simp)
  · exact List.mem_append_left _ (by simp)
  · intro cols hcols c hc
    subst hcols
    refine List.mem_append_left _ ?_
    refine List.mem_append_left _ ?_
    refine List.mem_append_right _ ?_
    cases cols with
    | nil => cases hc
    | cons a rest =>
        show SqlPart.ident c ∈ feature_expr (some (a :: rest)) g srid
        simp only [feature_expr, props_expr]
        refine List.mem_append_left _ ?_
        refine List.mem_append_right _ ?_
        refine List.mem_append_left _ ?_
        refine List.mem_append_right _ ?_
        exact ident_mem_sqlJoin c (a :: rest) hc
  · intro s hs
    rcases List.mem_append.mp hs with hbase | hextra
    · rcases List.mem_append.mp hbase with hsel | htail
      · rcases List.mem_append.mp hsel with hsel1 | hfeat
        · left
          simp only [List.mem_singleton] at hsel1
          injection hsel1 with hsel1
          subst hsel1
          simp [fixedRawTemplates]
        · exact Or.inl (raw_mem_feature_expr s columns g srid hfeat)
      · left
        simp only [List.mem_cons, List.not_mem_nil, or_false] at htail
        rcases htail with h | h | h | h | h | h | h <;>
          simp_all [fixedRawTemplates]
    · rcases List.mem_append.mp hextra with hw | hob
      · cases w with
        | none => cases hw
        | some w0 =>
            have hw2 : SqlPart.raw s ∈
                (if w0.trim = "" then ([] : List SqlPart)
                 else [.raw " AND (", .raw w0, .raw ")"]) := hw
            by_cases hwt : w0.trim = ""
            · rw [if_pos hwt] at hw2
              cases hw2
            · rw [if_neg hwt] at hw2
              simp only [List.mem_cons, List.not_mem_nil, or_false] at hw2
              rcases hw2 with h | h | h
              · injection h with h
                subst h
                exact Or.inl (by simp [fixedRawTemplates])
              · injection h with h
                subst h
                exact Or.inr (Or.inl ⟨s, rfl, rfl⟩)
              · injection h with h
                subst h
                exact Or.inl (by simp [fixedRawTemplates])
      · cases ob with
        | none => cases hob
        | some ob0 =>
            have hob2 : SqlPart.raw s ∈
                (if ob0.trim = "" then ([] : List SqlPart)
                 else [.raw " ORDER BY ", .raw ob0]) := hob
            by_cases hot : ob0.trim = ""
            · rw [if_pos hot] at hob2
              cases hob2
            · rw [if_neg hot] at hob2
              simp only [List.mem_cons, List.not_mem_nil, or_false] at hob2
              rcases hob2 with h | h
              · injection h with h
                subst h
                exact Or.inl (by simp [fixedRawTemplates])
              · injection h with h
                subst h
                exact Or.inr (Or.inr ⟨s, rfl, rfl⟩)

/-- Witness for the amended C7 at a concrete export spec. -/
theorem c7_identifier_hygiene_witness :
    SqlPart.ident "site_id" ∈
      build_query "public" "tblsites" (some ["site_id", "name"]) "shape"
        (some "status = %s") (some "site_id ASC") none :=
  (c7_identifier_hygiene "public" "tblsites" "shape" (some ["site_id", "name"])
      (some "status = %s") (some "site_id ASC") none [] []).2.2.2.1
    ["site_id", "name"] rfl "site_id" (by decide)

/-- Claim C8: in every assembled query the properties expression appears
wrapped as `COALESCE(<props>, \x27\x7b\x7d\x27::jsonb)` inside the
`jsonb_build_object` row expression, and by COALESCE semantics the
`properties` member of every emitted Feature is an object — never JSON
null — whether the properties expression evaluates to SQL NULL or to a
row object (even one whose every selected column is null). -/
theorem c8_coalesce_props (schema table : String)
    (columns : Option (List String)) (g : String)
    (w ob : Option String) (srid : Option Int) :
    (∃ post : List SqlPart,
      build_query schema table columns g w ob srid =
        ([SqlPart.raw "SELECT ",
          .raw "jsonb_build_object(\x27type\x27,\x27Feature\x27,\x27geometry\x27, "] ++
         geom_expr g srid ++
         [.raw ", \x27properties\x27, COALESCE("] ++
         props_expr columns g ++
         [.raw ", \x27\x7b\x7d\x27::jsonb))::text AS feature"]) ++ post) ∧
      (∀ gv : Json,
        objLookup "properties" (feature_value gv none) = some (.obj [])) ∧
      (∀ (gv : Json) (tcols : List String) (row : String → Json),
        objLookup "properties"
            (feature_value gv (some (props_value columns g tcols row))) =
          some (props_value columns g tcols row)) ∧
      (∀ (gv : Json) (pv : Option Json),
        (pv = none ∨ ∃ tcols row, pv = some (props_value columns g tcols row)) →
        objLookup "properties" (feature_value gv pv) ≠ some Json.null) := by
  refine ⟨?_, ?_, ?_, ?_⟩
  · refine ⟨[SqlPart.raw " FROM ", .ident schema, .raw ".", .ident table,
        .raw " t WHERE t.", .ident g, .raw " IS NOT NULL"] ++
      ((match w with
        | none => []
        | some w0 =>
            if w0.trim = "" then []
            else [SqlPart.raw " AND (", .raw w0, .raw ")"]) ++
       (match ob with
        | none => []
        | some ob0 =>
            if ob0.trim = "" then []
            else [SqlPart.raw " ORDER BY ", .raw ob0])), ?_⟩
    rw [build_query_eq_base_append]
    simp [feature_expr, List.append_assoc]
  · intro gv
    rfl
  · intro gv tcols row
    rfl
  · intro gv pv h
    rcases h with rfl | ⟨tcols, row, rfl⟩
    · intro hc
      have h0 : objLookup "properties" (feature_value gv none) =
          some (Json.obj []) := rfl
      rw [h0] at hc
      exact Json.noConfusion (Option.some.inj hc)
    · intro hc
      have h0 : objLookup "properties"
          (feature_value gv (some (props_value columns g tcols row))) =
          some (props_value columns g tcols row) := rfl
      rw [h0] at hc
      have h2 : Json.obj ((props_keys columns g tcols).map (fun c => (c, row c))) =
          Json.null := Option.some.inj hc
      exact Json.noConfusion h2

/-- Witness for C8 at the SQL NULL properties case. -/
theorem c8_coalesce_props_witness :
    objLookup "properties" (feature_value Json.null none) ≠ some Json.null :=
  (c8_coalesce_props "public" "t" none "geom" none none none).2.2.2
    Json.null none (Or.inl rfl)

/-! ## Parser roundtrip: digits and strings -/

theorem data_append (a b : String) : (a ++ b).data = a.data ++ b.data := by
  cases a
  cases b
  rfl

theorem mk_data (s : String) : String.mk s.data = s := rfl

theorem dval_dchar : ∀ d, d < 10 → dval (dchar d) = d := by decide

theorem isDig_dchar : ∀ d, d < 10 → isDig (dchar d) = true := by decide

theorem dchar_not_special : ∀ d, d < 10 →
    isWsC (dchar d) = false ∧ dchar d ≠ '"' ∧ dchar d ≠ '\x7b' ∧
      dchar d ≠ '[' ∧ dchar d ≠ 't' ∧ dchar d ≠ 'f' ∧ dchar d ≠ 'n' ∧
      dchar d ≠ '-' ∧ dchar d ≠ ']' := by decide

theorem skipWs_not_ws (c : Char) (cs : List Char) (h : isWsC c = false) :
    skipWs (c :: cs) = c :: cs := by
  simp [skipWs, h]

theorem parseDigits_cons (c : Char) (cs : List Char) (acc : Nat) :
    parseDigits (c :: cs) acc =
      if isDig c then parseDigits cs (acc * 10 + dval c) else (acc, c :: cs) := rfl

theorem parseNat1_cons (c : Char) (cs : List Char) :
    parseNat1 (c :: cs) =
      if isDig c then some (parseDigits cs (dval c)) else none := rfl

theorem parseStrBody_cons (c : Char) (cs : List Char) :
    parseStrBody (c :: cs) =
      if c = '"' then some ([], cs)
      else if c = '\\' then
        match cs with
        | [] => none
        | d :: cs2 => (parseStrBody cs2).map (fun r => (d :: r.1, r.2))
      else (parseStrBody cs).map (fun r => (c :: r.1, r.2)) := by
  conv_lhs => rw [parseStrBody.eq_def]

theorem parseDigits_stop (cs : List Char) (acc : Nat) (h : headNotDig cs) :
    parseDigits cs acc = (acc, cs) := by
  cases cs with
  | nil => rfl
  | cons c cs2 =>
      simp only [headNotDig] at h
      rw [parseDigits_cons, if_neg (by simp [h])]

theorem foldl_mul_add (ds : List Nat) (acc : Nat) :
    ds.foldl (fun a d => a * 10 + d) acc =
      acc * 10 ^ ds.length + Nat.ofDigits 10 ds.reverse := by
  induction ds generalizing acc with
  | nil => simp [Nat.ofDigits_nil]
  | cons d ds ih =>
      simp only [List.foldl_cons, List.reverse_cons, List.length_cons]
      rw [ih (acc * 10 + d), Nat.ofDigits_append]
      simp [Nat.ofDigits_cons, Nat.ofDigits_nil, List.length_reverse]
      ring

theorem parseDigits_run (ds : List Nat) (hds : ∀ d ∈ ds, d < 10)
    (rest : List Char) (hrest : headNotDig rest) (acc : Nat) :
    parseDigits (ds.map dchar ++ rest) acc =
      (acc * 10 ^ ds.length + Nat.ofDigits 10 ds.reverse, rest) := by
  induction ds generalizing acc with
  | nil =>
      simp only [List.map_nil, List.nil_append, List.length_nil]
      rw [parseDigits_stop rest acc hrest]
      simp [Nat.ofDigits_nil]
  | cons d ds ih =>
      have hd : d < 10 := hds d (List.mem_cons_self d ds)
      have hds2 : ∀ x ∈ ds, x < 10 := fun x hx => hds x (List.mem_cons_of_mem d hx)
      rw [List.map_cons, List.cons_append, parseDigits_cons,
        if_pos (isDig_dchar d hd), dval_dchar d hd, ih hds2 (acc * 10 + d)]
      rw [List.reverse_cons, Nat.ofDigits_append]
      simp only [List.length_cons, List.length_reverse, Nat.ofDigits_cons,
        Nat.ofDigits_nil, Prod.mk.injEq, and_true]
      ring

theorem parseNat1_renderNat (n : Nat) (rest : List Char) (hrest : headNotDig rest) :
    parseNat1 (renderNat n ++ rest) = some (n, rest) := by
  by_cases h : n = 0
  · subst h
    rw [show renderNat 0 = ['0'] from rfl, List.cons_append, List.nil_append,
      parseNat1_cons, if_pos (by decide : isDig '0' = true)]
    rw [parseDigits_stop rest _ hrest]
    rfl
  · have hne : Nat.digits 10 n ≠ [] := Nat.digits_ne_nil_iff_ne_zero.mpr h
    have hlt : ∀ d ∈ (Nat.digits 10 n).reverse, d < 10 := by
      intro d hd
      exact Nat.digits_lt_base (by norm_num) (List.mem_reverse.mp hd)
    rw [renderNat, if_neg h]
    cases hBE : (Nat.digits 10 n).reverse with
    | nil =>
        exfalso
        apply hne
        have := congrArg List.reverse hBE
        simpa using this
    | cons d ds =>
        have hd : d < 10 := by
          apply hlt d
          rw [hBE]
          exact List.mem_cons_self _ _
        have hds : ∀ x ∈ ds, x < 10 := by
          intro x hx
          apply hlt x
          rw [hBE]
          exact List.mem_cons_of_mem _ hx
        rw [List.map_cons, List.cons_append, parseNat1_cons,
          if_pos (isDig_dchar d hd), dval_dchar d hd]
        rw [parseDigits_run ds hds rest hrest d]
        have harith : d * 10 ^ ds.length + Nat.ofDigits 10 ds.reverse = n := by
          have h1 : Nat.ofDigits 10 ((d :: ds).reverse) = n := by
            rw [← hBE]
            simp only [List.reverse_reverse]
            exact Nat.ofDigits_digits 10 n
          rw [List.reverse_cons, Nat.ofDigits_append] at h1
          simp only [Nat.ofDigits_cons, Nat.ofDigits_nil, List.length_reverse,
            Nat.mul_zero, Nat.add_zero, mul_zero, add_zero] at h1
          rw [← h1]
          ring
        rw [harith]

theorem parseStrBody_esc (cs : List Char) (rest : List Char) :
    parseStrBody (esc cs ++ '"' :: rest) = some (cs, rest) := by
  induction cs with
  | nil =>
      rw [show esc [] = [] from rfl, List.nil_append, parseStrBody_cons, if_pos rfl]
  | cons c cs2 ih =>
      by_cases h : c = '"' ∨ c = '\\'
      · rw [show esc (c :: cs2) = '\\' :: c :: esc cs2 from by simp [esc, h]]
        rw [List.cons_append, List.cons_append, parseStrBody_cons,
          if_neg (by decide : ¬('\\' : Char) = '"'), if_pos rfl]
        show (parseStrBody (esc cs2 ++ '"' :: rest)).map _ = _
        rw [ih]
        rfl
      · push_neg at h
        rw [show esc (c :: cs2) = c :: esc cs2 from by simp [esc, h.1, h.2]]
        rw [List.cons_append, parseStrBody_cons, if_neg h.1, if_neg h.2]
        rw [ih]
        rfl

/-! ## Parser single-step lemmas -/

theorem parseA_null (k : Nat) (rest : List Char) :
    parseA (k + 1) .val ('n' :: 'u' :: 'l' :: 'l' :: rest) =
      some (.v .null, rest) := rfl

theorem parseA_true (k : Nat) (rest : List Char) :
    parseA (k + 1) .val ('t' :: 'r' :: 'u' :: 'e' :: rest) =
      some (.v (.bool true), rest) := rfl

theorem parseA_false (k : Nat) (rest : List Char) :
    parseA (k + 1) .val ('f' :: 'a' :: 'l' :: 's' :: 'e' :: rest) =
      some (.v (.bool false), rest) := rfl

theorem parseA_str (k : Nat) (cs : List Char) :
    parseA (k + 1) .val ('"' :: cs) =
      (parseStrBody cs).map (fun r => (.v (.str ⟨r.1⟩), r.2)) := rfl

theorem parseA_obj (k : Nat) (cs : List Char) :
    parseA (k + 1) .val ('\x7b' :: cs) =
      (match parseA k .members cs with
       | some (.ms ms, r) => some (.v (.obj ms), r)
       | _ => none) := rfl

theorem parseA_arr (k : Nat) (cs : List Char) :
    parseA (k + 1) .val ('[' :: cs) =
      (match parseA k .elems cs with
       | some (.vs vs, r) => some (.v (.arr vs), r)
       | _ => none) := rfl

theorem parseA_neg (k : Nat) (cs : List Char) :
    parseA (k + 1) .val ('-' :: cs) =
      (parseNat1 cs).map (fun r => (.v (.num (-(r.1 : Int))), r.2)) := rfl

theorem isDig_bounds (c : Char) (h : isDig c = true) :
    48 ≤ c.toNat ∧ c.toNat ≤ 57 := by
  simpa [isDig] using h

theorem isDig_facts (c : Char) (h : isDig c = true) :
    isWsC c = false ∧ ¬c = '"' ∧ ¬c = '\x7b' ∧ ¬c = '[' ∧ ¬c = 't' ∧
      ¬c = 'f' ∧ ¬c = 'n' ∧ ¬c = '-' ∧ ¬c = ']' ∧ ¬c = ',' ∧ ¬c = '\x7d' := by
  have hn := isDig_bounds c h
  refine ⟨?_, ?_, ?_, ?_, ?_, ?_, ?_, ?_, ?_, ?_, ?_⟩
  · rw [isWsC]
    simp only [Bool.or_eq_false_iff, decide_eq_false_iff_not]
    refine ⟨⟨⟨?_, ?_⟩, ?_⟩, ?_⟩ <;> intro hEq <;> subst hEq <;> revert hn <;> decide
  all_goals intro hEq <;> subst hEq <;> revert hn <;> decide

theorem parseA_dig (k : Nat) (c : Char) (cs : List Char) (h : isDig c = true) :
    parseA (k + 1) .val (c :: cs) =
      (parseNat1 (c :: cs)).map (fun r => (.v (.num (r.1 : Int)), r.2)) := by
  obtain ⟨hws, h1, h2, h3, h4, h5, h6, h7, _, _, _⟩ := isDig_facts c h
  conv_lhs => rw [parseA.eq_def]
  simp only [skipWs, hws, Bool.false_eq_true, if_false, if_neg h1, if_neg h2,
    if_neg h3, if_neg h4, if_neg h5, if_neg h6, if_neg h7, if_pos h]

theorem parseA_elems_close (k : Nat) (cs : List Char) :
    parseA (k + 1) .elems (']' :: cs) = some (.vs [], cs) := rfl

theorem parseA_elems_go (k : Nat) (c : Char) (cs : List Char)
    (hws : isWsC c = false) (hc : ¬c = ']') :
    parseA (k + 1) .elems (c :: cs) =
      (match parseA k .val (c :: cs) with
       | some (.v v, r) =>
           (match parseA k .elemsTail r with
            | some (.vs vs, r2) => some (.vs (v :: vs), r2)
            | _ => none)
       | _ => none) := by
  conv_lhs => rw [parseA.eq_def]
  simp only [skipWs, hws, Bool.false_eq_true, if_false, if_neg hc]

theorem parseA_elemsTail_close (k : Nat) (cs : List Char) :
    parseA (k + 1) .elemsTail (']' :: cs) = some (.vs [], cs) := rfl

theorem parseA_elemsTail_comma (k : Nat) (cs : List Char) :
    parseA (k + 1) .elemsTail (',' :: cs) =
      (match parseA k .val cs with
       | some (.v v, r) =>
           (match parseA k .elemsTail r with
            | some (.vs vs, r2) => some (.vs (v :: vs), r2)
            | _ => none)
       | _ => none) := rfl

theorem parseA_members_close (k : Nat) (cs : List Char) :
    parseA (k + 1) .members ('\x7d' :: cs) = some (.ms [], cs) := rfl

theorem parseA_members_key (k : Nat) (cs : List Char) :
    parseA (k + 1) .members ('"' :: cs) =
      (match parseStrBody cs with
       | none => none
       | some (key, r1) =>
           (match skipWs r1 with
            | ':' :: r2 =>
                (match parseA k .val r2 with
                 | some (.v v, r3) =>
                     (match parseA k .membersTail r3 with
                      | some (.ms ms, r4) => some (.ms ((⟨key⟩, v) :: ms), r4)
                      | _ => none)
                 | _ => none)
            | _ => none)) := rfl

theorem parseA_membersTail_close (k : Nat) (cs : List Char) :
    parseA (k + 1) .membersTail ('\x7d' :: cs) = some (.ms [], cs) := rfl

theorem parseA_membersTail_comma (k : Nat) (cs : List Char) :
    parseA (k + 1) .membersTail (',' :: cs) =
      (match skipWs cs with
       | '"' :: r0 =>
           (match parseStrBody r0 with
            | none => none
            | some (key, r1) =>
                (match skipWs r1 with
                 | ':' :: r2 =>
                     (match parseA k .val r2 with
                      | some (.v v, r3) =>
                          (match parseA k .membersTail r3 with
                           | some (.ms ms, r4) =>
                               some (.ms ((⟨key⟩, v) :: ms), r4)
                           | _ => none)
                      | _ => none)
                 | _ => none))
       | _ => none) := rfl

theorem parseA_ws (k : Nat) (m : PMode) (c : Char) (cs : List Char)
    (h : isWsC c = true) :
    parseA (k + 1) m (c :: cs) = parseA (k + 1) m cs := by
  conv_lhs => rw [parseA.eq_def]
  conv_rhs => rw [parseA.eq_def]
  cases m <;> simp only [skipWs, h, if_true, if_pos]

theorem renderNat_head (n : Nat) :
    ∃ d cs, d < 10 ∧ renderNat n = dchar d :: cs := by
  by_cases h : n = 0
  · exact ⟨0, [], by omega, by simp [h, renderNat]; rfl⟩
  · have hne : Nat.digits 10 n ≠ [] := Nat.digits_ne_nil_iff_ne_zero.mpr h
    rw [renderNat, if_neg h]
    cases hBE : (Nat.digits 10 n).reverse with
    | nil =>
        exfalso
        apply hne
        have := congrArg List.reverse hBE
        simpa using this
    | cons d ds =>
        refine ⟨d, ds.map dchar, ?_, rfl⟩
        have hmem : d ∈ (Nat.digits 10 n).reverse := by
          rw [hBE]
          exact List.mem_cons_self _ _
        exact Nat.digits_lt_base (by norm_num) (List.mem_reverse.mp hmem)

theorem render_head (v : Json) :
    ∃ c cs, render v = c :: cs ∧ isWsC c = false ∧ ¬c = ']' := by
  cases v with
  | null => exact ⟨'n', ['u', 'l', 'l'], by simp [render], by decide, by decide⟩
  | bool b =>
      cases b with
      | true => exact ⟨'t', ['r', 'u', 'e'], by simp [render], by decide, by decide⟩
      | false =>
          exact ⟨'f', ['a', 'l', 's', 'e'], by simp [render], by decide, by decide⟩
  | str s => exact ⟨'"', esc s.data ++ ['"'], by simp [render], by decide, by decide⟩
  | arr vs =>
      exact ⟨'[', renderInner vs ++ [']'], by simp [render], by decide, by decide⟩
  | obj ms =>
      exact ⟨'\x7b', renderMInner ms ++ ['\x7d'], by simp [render], by decide,
        by decide⟩
  | num i =>
      by_cases hi : i < 0
      · refine ⟨'-', renderNat i.natAbs, ?_, by decide, by decide⟩
        simp [render, renderInt, hi]
      · obtain ⟨d, cs, hd, hrn⟩ := renderNat_head i.toNat
        have hdig := isDig_dchar d hd
        obtain ⟨hws, _, _, _, _, _, _, _, hbr, _, _⟩ := isDig_facts _ hdig
        refine ⟨dchar d, cs, ?_, hws, hbr⟩
        simp [render, renderInt, hi, hrn]

theorem headNotDig_cons (c : Char) (cs : List Char) (h : isDig c = false) :
    headNotDig (c :: cs) := h

theorem numOk_of_headNotDig (v : Json) (cs : List Char) (h : headNotDig cs) :
    numOk v cs := by
  cases v <;> simp [numOk] <;> exact h

theorem headNotDig_tailL (vs : List Json) (rest : List Char) :
    headNotDig (renderTailL vs ++ ']' :: rest) := by
  cases vs with
  | nil =>
      rw [show renderTailL [] = [] from by simp [renderTailL], List.nil_append]
      exact headNotDig_cons _ _ (by decide)
  | cons v vs2 =>
      rw [show renderTailL (v :: vs2) = ',' :: (render v ++ renderTailL vs2)
        from by simp [renderTailL], List.cons_append]
      exact headNotDig_cons _ _ (by decide)

theorem headNotDig_mtailL (ms : List (String × Json)) (rest : List Char) :
    headNotDig (renderMTailL ms ++ '\x7d' :: rest) := by
  cases ms with
  | nil =>
      rw [show renderMTailL [] = [] from by simp [renderMTailL], List.nil_append]
      exact headNotDig_cons _ _ (by decide)
  | cons m ms2 =>
      rw [show renderMTailL (m :: ms2) = ',' :: (renderMember m ++ renderMTailL ms2)
        from by simp [renderMTailL], List.cons_append]
      exact headNotDig_cons _ _ (by decide)

theorem parseA_membersTail_comma_key (k : Nat) (cs : List Char) :
    parseA (k + 1) .membersTail (',' :: '"' :: cs) =
      (match parseStrBody cs with
       | none => none
       | some (key, r1) =>
           (match skipWs r1 with
            | ':' :: r2 =>
                (match parseA k .val r2 with
                 | some (.v v, r3) =>
                     (match parseA k .membersTail r3 with
                      | some (.ms ms, r4) => some (.ms ((⟨key⟩, v) :: ms), r4)
                      | _ => none)
                 | _ => none)
            | _ => none)) := rfl

/-! ## Parser roundtrip: the mutual induction -/

mutual

theorem parseA_render_val (v : Json) (fuel : Nat) (rest : List Char)
    (hnum : numOk v rest) :
    parseA (needV v + fuel) .val (render v ++ rest) = some (.v v, rest) := by
  cases v with
  | null =>
      rw [show needV .null = 1 from by simp [needV], Nat.add_comm 1 fuel,
        show render Json.null ++ rest = 'n' :: 'u' :: 'l' :: 'l' :: rest from by
          simp [render]]
      exact parseA_null fuel rest
  | bool b =>
      cases b with
      | true =>
          rw [show needV (.bool true) = 1 from by simp [needV],
            Nat.add_comm 1 fuel,
            show render (Json.bool true) ++ rest =
              't' :: 'r' :: 'u' :: 'e' :: rest from by simp [render]]
          exact parseA_true fuel rest
      | false =>
          rw [show needV (.bool false) = 1 from by simp [needV],
            Nat.add_comm 1 fuel,
            show render (Json.bool false) ++ rest =
              'f' :: 'a' :: 'l' :: 's' :: 'e' :: rest from by simp [render]]
          exact parseA_false fuel rest
  | str s =>
      rw [show needV (.str s) = 1 from by simp [needV], Nat.add_comm 1 fuel,
        show render (Json.str s) ++ rest = '"' :: (esc s.data ++ '"' :: rest)
          from by simp [render, List.append_assoc]]
      rw [parseA_str, parseStrBody_esc]
      rfl
  | num i =>
      rw [show needV (.num i) = 1 from by simp [needV], Nat.add_comm 1 fuel]
      have hnd : headNotDig rest := by simpa [numOk] using hnum
      by_cases hi : i < 0
      · rw [show render (Json.num i) ++ rest =
            '-' :: (renderNat i.natAbs ++ rest) from by
            simp [render, renderInt, hi]]
        rw [parseA_neg, parseNat1_renderNat _ rest hnd]
        have hcast : -((i.natAbs : Nat) : Int) = i := by omega
        show some (PRes.v (Json.num (-((i.natAbs : Nat) : Int))), rest) =
          some (PRes.v (Json.num i), rest)
        rw [hcast]
      · rw [show render (Json.num i) ++ rest = renderNat i.toNat ++ rest from by
            simp [render, renderInt, hi]]
        obtain ⟨d, cs, hd, hrn⟩ := renderNat_head i.toNat
        rw [hrn, List.cons_append, parseA_dig _ _ _ (isDig_dchar d hd),
          ← List.cons_append, ← hrn]
        rw [parseNat1_renderNat _ rest hnd]
        have hcast : ((i.toNat : Nat) : Int) = i := by omega
        show some (PRes.v (Json.num ((i.toNat : Nat) : Int)), rest) =
          some (PRes.v (Json.num i), rest)
        rw [hcast]
  | arr vs =>
      rw [show needV (.arr vs) = 1 + needE vs from by simp [needV],
        show 1 + needE vs + fuel = (needE vs + fuel) + 1 from by omega,
        show render (Json.arr vs) ++ rest =
          '[' :: (renderInner vs ++ ']' :: rest) from by
          simp [render, List.append_assoc]]
      rw [parseA_arr]
      simp only [parseA_render_elems vs fuel rest]
  | obj ms =>
      rw [show needV (.obj ms) = 1 + needM ms from by simp [needV],
        show 1 + needM ms + fuel = (needM ms + fuel) + 1 from by omega,
        show render (Json.obj ms) ++ rest =
          '\x7b' :: (renderMInner ms ++ '\x7d' :: rest) from by
          simp [render, List.append_assoc]]
      rw [parseA_obj]
      simp only [parseA_render_members ms fuel rest]
termination_by sizeOf v

theorem parseA_render_elems (vs : List Json) (fuel : Nat) (rest : List Char) :
    parseA (needE vs + fuel) .elems (renderInner vs ++ ']' :: rest) =
      some (.vs vs, rest) := by
  cases vs with
  | nil =>
      rw [show needE ([] : List Json) = 1 from by simp [needE],
        Nat.add_comm 1 fuel,
        show renderInner ([] : List Json) ++ ']' :: rest = ']' :: rest from by
          simp [renderInner]]
      exact parseA_elems_close fuel rest
  | cons v vs2 =>
      rw [show needE (v :: vs2) = 1 + needV v + needT vs2 from by simp [needE],
        show 1 + needV v + needT vs2 + fuel =
          (needV v + needT vs2 + fuel) + 1 from by omega,
        show renderInner (v :: vs2) ++ ']' :: rest =
          render v ++ (renderTailL vs2 ++ ']' :: rest) from by
          simp [renderInner, List.append_assoc]]
      obtain ⟨c, cs, hcv, hws, hbr⟩ := render_head v
      rw [hcv, List.cons_append, parseA_elems_go _ c _ hws hbr,
        ← List.cons_append, ← hcv]
      have hnum : numOk v (renderTailL vs2 ++ ']' :: rest) :=
        numOk_of_headNotDig _ _ (headNotDig_tailL vs2 rest)
      have h1 := parseA_render_val v (needT vs2 + fuel)
        (renderTailL vs2 ++ ']' :: rest) hnum
      rw [show needV v + (needT vs2 + fuel) = needV v + needT vs2 + fuel from by
        omega] at h1
      have h2 := parseA_render_elemsTail vs2 (needV v + fuel) rest
      rw [show needT vs2 + (needV v + fuel) = needV v + needT vs2 + fuel from by
        omega] at h2
      simp only [h1, h2]
termination_by sizeOf vs

theorem parseA_render_elemsTail (vs : List Json) (fuel : Nat) (rest : List Char) :
    parseA (needT vs + fuel) .elemsTail (renderTailL vs ++ ']' :: rest) =
      some (.vs vs, rest) := by
  cases vs with
  | nil =>
      rw [show needT ([] : List Json) = 1 from by simp [needT],
        Nat.add_comm 1 fuel,
        show renderTailL ([] : List Json) ++ ']' :: rest = ']' :: rest from by
          simp [renderTailL]]
      exact parseA_elemsTail_close fuel rest
  | cons v vs2 =>
      rw [show needT (v :: vs2) = 1 + needV v + needT vs2 from by simp [needT],
        show 1 + needV v + needT vs2 + fuel =
          (needV v + needT vs2 + fuel) + 1 from by omega,
        show renderTailL (v :: vs2) ++ ']' :: rest =
          ',' :: (render v ++ (renderTailL vs2 ++ ']' :: rest)) from by
          simp [renderTailL, List.append_assoc]]
      rw [parseA_elemsTail_comma]
      have hnum : numOk v (renderTailL vs2 ++ ']' :: rest) :=
        numOk_of_headNotDig _ _ (headNotDig_tailL vs2 rest)
      have h1 := parseA_render_val v (needT vs2 + fuel)
        (renderTailL vs2 ++ ']' :: rest) hnum
      rw [show needV v + (needT vs2 + fuel) = needV v + needT vs2 + fuel from by
        omega] at h1
      have h2 := parseA_render_elemsTail vs2 (needV v + fuel) rest
      rw [show needT vs2 + (needV v + fuel) = needV v + needT vs2 + fuel from by
        omega] at h2
      simp only [h1, h2]
termination_by sizeOf vs

theorem parseA_render_members (ms : List (String × Json)) (fuel : Nat)
    (rest : List Char) :
    parseA (needM ms + fuel) .members (renderMInner ms ++ '\x7d' :: rest) =
      some (.ms ms, rest) := by
  cases ms with
  | nil =>
      rw [show needM ([] : List (String × Json)) = 1 from by simp [needM],
        Nat.add_comm 1 fuel,
        show renderMInner ([] : List (String × Json)) ++ '\x7d' :: rest =
          '\x7d' :: rest from by simp [renderMInner]]
      exact parseA_members_close fuel rest
  | cons m ms2 =>
      obtain ⟨k, v⟩ := m
      rw [show needM ((k, v) :: ms2) = 1 + needV v + needMT ms2 from by
          simp [needM],
        show 1 + needV v + needMT ms2 + fuel =
          (needV v + needMT ms2 + fuel) + 1 from by omega,
        show renderMInner ((k, v) :: ms2) ++ '\x7d' :: rest =
          '"' :: (esc k.data ++ '"' :: ':' ::
            (render v ++ (renderMTailL ms2 ++ '\x7d' :: rest))) from by
          simp [renderMInner, renderMember, List.append_assoc]]
      rw [parseA_members_key, parseStrBody_esc]
      simp only []
      rw [skipWs_not_ws ':' _ (by decide)]
      have hnum : numOk v (renderMTailL ms2 ++ '\x7d' :: rest) :=
        numOk_of_headNotDig _ _ (headNotDig_mtailL ms2 rest)
      have h1 := parseA_render_val v (needMT ms2 + fuel)
        (renderMTailL ms2 ++ '\x7d' :: rest) hnum
      rw [show needV v + (needMT ms2 + fuel) = needV v + needMT ms2 + fuel from by
        omega] at h1
      have h2 := parseA_render_membersTail ms2 (needV v + fuel) rest
      rw [show needMT ms2 + (needV v + fuel) = needV v + needMT ms2 + fuel from by
        omega] at h2
      simp only [h1, h2]
termination_by sizeOf ms

theorem parseA_render_membersTail (ms : List (String × Json)) (fuel : Nat)
    (rest : List Char) :
    parseA (needMT ms + fuel) .membersTail (renderMTailL ms ++ '\x7d' :: rest) =
      some (.ms ms, rest) := by
  cases ms with
  | nil =>
      rw [show needMT ([] : List (String × Json)) = 1 from by simp [needMT],
        Nat.add_comm 1 fuel,
        show renderMTailL ([] : List (String × Json)) ++ '\x7d' :: rest =
          '\x7d' :: rest from by simp [renderMTailL]]
      exact parseA_membersTail_close fuel rest
  | cons m ms2 =>
      obtain ⟨k, v⟩ := m
      rw [show needMT ((k, v) :: ms2) = 1 + needV v + needMT ms2 from by
          simp [needMT],
        show 1 + needV v + needMT ms2 + fuel =
          (needV v + needMT ms2 + fuel) + 1 from by omega,
        show renderMTailL ((k, v) :: ms2) ++ '\x7d' :: rest =
          ',' :: '"' :: (esc k.data ++ '"' :: ':' ::
            (render v ++ (renderMTailL ms2 ++ '\x7d' :: rest))) from by
          simp [renderMTailL, renderMember, List.append_assoc]]
      rw [parseA_membersTail_comma_key, parseStrBody_esc]
      simp only []
      rw [skipWs_not_ws ':' _ (by decide)]
      have hnum : numOk v (renderMTailL ms2 ++ '\x7d' :: rest) :=
        numOk_of_headNotDig _ _ (headNotDig_mtailL ms2 rest)
      have h1 := parseA_render_val v (needMT ms2 + fuel)
        (renderMTailL ms2 ++ '\x7d' :: rest) hnum
      rw [show needV v + (needMT ms2 + fuel) = needV v + needMT ms2 + fuel from by
        omega] at h1
      have h2 := parseA_render_membersTail ms2 (needV v + fuel) rest
      rw [show needMT ms2 + (needV v + fuel) = needV v + needMT ms2 + fuel from by
        omega] at h2
      simp only [h1, h2]
termination_by sizeOf ms

end

/-! ## Parsing the export file's feature section -/

theorem needV_pos (v : Json) : 1 ≤ needV v := by
  cases v <;> simp [needV] <;> omega

theorem featBody_data_nil : (featBody []).data = [] := rfl

theorem catS_sep_data (ts : List String) :
    (catS (ts.map (fun t2 => ",\n" ++ t2))).data = tailChars ts := by
  induction ts with
  | nil => rfl
  | cons t ts ih =>
      simp only [List.map_cons, catS, data_append, tailChars, ih]
      rfl

theorem featBody_data_cons (t : String) (ts : List String) :
    (featBody (t :: ts)).data = '\n' :: (t.data ++ tailChars ts) := by
  simp only [featBody, data_append, catS_sep_data]
  rfl

theorem renderStr_data (v : Json) : (renderStr v).data = render v := rfl

theorem headNotDig_fileTail (vs : List Json) (rest : List Char) :
    headNotDig (tailChars (vs.map renderStr) ++ '\n' :: ']' :: rest) := by
  cases vs with
  | nil => exact headNotDig_cons _ _ (by decide)
  | cons v vs2 =>
      rw [List.map_cons, show tailChars (renderStr v :: vs2.map renderStr) =
        ',' :: '\n' :: ((renderStr v).data ++ tailChars (vs2.map renderStr))
        from by simp [tailChars], List.cons_append]
      exact headNotDig_cons _ _ (by decide)

theorem parseA_file_tail (vs : List Json) (fuel : Nat) (rest : List Char) :
    parseA (needT vs + fuel) .elemsTail
      (tailChars (vs.map renderStr) ++ '\n' :: ']' :: rest) =
      some (.vs vs, rest) := by
  induction vs generalizing fuel rest with
  | nil =>
      rw [show needT ([] : List Json) = 1 from by simp [needT],
        Nat.add_comm 1 fuel,
        show tailChars (([] : List Json).map renderStr) ++ '\n' :: ']' :: rest =
          '\n' :: ']' :: rest from by simp [tailChars]]
      rw [parseA_ws _ _ '\n' _ (by decide)]
      exact parseA_elemsTail_close fuel rest
  | cons v vs2 ih =>
      rw [show needT (v :: vs2) = 1 + needV v + needT vs2 from by simp [needT],
        show 1 + needV v + needT vs2 + fuel =
          (needV v + needT vs2 + fuel) + 1 from by omega,
        show tailChars ((v :: vs2).map renderStr) ++ '\n' :: ']' :: rest =
          ',' :: ('\n' :: (render v ++
            (tailChars (vs2.map renderStr) ++ '\n' :: ']' :: rest))) from by
          simp [tailChars, renderStr_data, List.append_assoc]]
      rw [parseA_elemsTail_comma]
      have hnd := headNotDig_fileTail vs2 rest
      obtain ⟨k0, hk0⟩ : ∃ k0, needV v + needT vs2 + fuel = k0 + 1 :=
        ⟨needV v + needT vs2 + fuel - 1, by have := needV_pos v; omega⟩
      have h1 : parseA (needV v + needT vs2 + fuel) .val
          ('\n' :: (render v ++
            (tailChars (vs2.map renderStr) ++ '\n' :: ']' :: rest))) =
          some (.v v, tailChars (vs2.map renderStr) ++ '\n' :: ']' :: rest) := by
        rw [hk0, parseA_ws _ _ '\n' _ (by decide), ← hk0,
          show needV v + needT vs2 + fuel = needV v + (needT vs2 + fuel) from by
            omega]
        exact parseA_render_val v _ _ (numOk_of_headNotDig _ _ hnd)
      have h2 : parseA (needV v + needT vs2 + fuel) .elemsTail
          (tailChars (vs2.map renderStr) ++ '\n' :: ']' :: rest) =
          some (.vs vs2, rest) := by
        rw [show needV v + needT vs2 + fuel = needT vs2 + (needV v + fuel) from by
          omega]
        exact ih (needV v + fuel) rest
      simp only [h1, h2]

theorem parseA_file_elems (vs : List Json) (fuel : Nat) (rest : List Char) :
    parseA (needE vs + fuel) .elems
      ((featBody (vs.map renderStr)).data ++ '\n' :: ']' :: rest) =
      some (.vs vs, rest) := by
  cases vs with
  | nil =>
      rw [show needE ([] : List Json) = 1 from by simp [needE],
        Nat.add_comm 1 fuel, List.map_nil, featBody_data_nil, List.nil_append]
      rw [parseA_ws _ _ '\n' _ (by decide)]
      exact parseA_elems_close fuel rest
  | cons v vs2 =>
      rw [show needE (v :: vs2) = 1 + needV v + needT vs2 from by simp [needE],
        show 1 + needV v + needT vs2 + fuel =
          (needV v + needT vs2 + fuel) + 1 from by omega,
        List.map_cons, featBody_data_cons, renderStr_data]
      rw [show ('\n' :: (render v ++ tailChars (vs2.map renderStr))) ++
          '\n' :: ']' :: rest =
          '\n' :: (render v ++
            (tailChars (vs2.map renderStr) ++ '\n' :: ']' :: rest)) from by
          simp [List.append_assoc]]
      rw [parseA_ws _ _ '\n' _ (by decide)]
      obtain ⟨c, cs, hcv, hws, hbr⟩ := render_head v
      rw [hcv, List.cons_append, parseA_elems_go _ c _ hws hbr,
        ← List.cons_append, ← hcv]
      have hnd := headNotDig_fileTail vs2 rest
      have h1 : parseA (needV v + needT vs2 + fuel) .val
          (render v ++ (tailChars (vs2.map renderStr) ++ '\n' :: ']' :: rest)) =
          some (.v v, tailChars (vs2.map renderStr) ++ '\n' :: ']' :: rest) := by
        rw [show needV v + needT vs2 + fuel = needV v + (needT vs2 + fuel) from by
          omega]
        exact parseA_render_val v _ _ (numOk_of_headNotDig _ _ hnd)
      have h2 : parseA (needV v + needT vs2 + fuel) .elemsTail
          (tailChars (vs2.map renderStr) ++ '\n' :: ']' :: rest) =
          some (.vs vs2, rest) := by
        rw [show needV v + needT vs2 + fuel = needT vs2 + (needV v + fuel) from by
          omega]
        exact parseA_file_tail vs2 (needV v + fuel) rest
      simp only [h1, h2]

theorem parseA_file_skeleton (vs : List Json) (fuel : Nat) :
    parseA ((needE vs + fuel) + 4) .val
      (fcHead.data ++
        ((featBody (vs.map renderStr)).data ++ ['\n', ']', '\x7d'])) =
      some (.v (fcJson vs), []) := by
  have hsk : ∀ cs : List Char, skipWs (':' :: cs) = ':' :: cs := fun cs =>
    skipWs_not_ws ':' cs (by decide)
  have hk1 : ∀ cs : List Char,
      parseStrBody ('t' :: 'y' :: 'p' :: 'e' :: '"' :: cs) =
        some (['t', 'y', 'p', 'e'], cs) := by
    intro cs
    have h := parseStrBody_esc ['t', 'y', 'p', 'e'] cs
    rw [show esc ['t', 'y', 'p', 'e'] = ['t', 'y', 'p', 'e'] from by decide] at h
    simpa using h
  have hk2 : ∀ cs : List Char,
      parseStrBody ('F' :: 'e' :: 'a' :: 't' :: 'u' :: 'r' :: 'e' :: 'C' ::
        'o' :: 'l' :: 'l' :: 'e' :: 'c' :: 't' :: 'i' :: 'o' :: 'n' :: '"' :: cs) =
        some (['F', 'e', 'a', 't', 'u', 'r', 'e', 'C', 'o', 'l', 'l', 'e', 'c',
          't', 'i', 'o', 'n'], cs) := by
    intro cs
    have h := parseStrBody_esc ['F', 'e', 'a', 't', 'u', 'r', 'e', 'C', 'o',
      'l', 'l', 'e', 'c', 't', 'i', 'o', 'n'] cs
    rw [show esc ['F', 'e', 'a', 't', 'u', 'r', 'e', 'C', 'o', 'l', 'l', 'e',
      'c', 't', 'i', 'o', 'n'] = ['F', 'e', 'a', 't', 'u', 'r', 'e', 'C', 'o',
      'l', 'l', 'e', 'c', 't', 'i', 'o', 'n'] from by decide] at h
    simpa using h
  have hk3 : ∀ cs : List Char,
      parseStrBody ('f' :: 'e' :: 'a' :: 't' :: 'u' :: 'r' :: 'e' :: 's' ::
        '"' :: cs) =
        some (['f', 'e', 'a', 't', 'u', 'r', 'e', 's'], cs) := by
    intro cs
    have h := parseStrBody_esc ['f', 'e', 'a', 't', 'u', 'r', 'e', 's'] cs
    rw [show esc ['f', 'e', 'a', 't', 'u', 'r', 'e', 's'] =
      ['f', 'e', 'a', 't', 'u', 'r', 'e', 's'] from by decide] at h
    simpa using h
  rw [show fcHead.data = '\x7b' :: '"' :: 't' :: 'y' :: 'p' :: 'e' :: '"' ::
    ':' :: '"' :: 'F' :: 'e' :: 'a' :: 't' :: 'u' :: 'r' :: 'e' :: 'C' ::
    'o' :: 'l' :: 'l' :: 'e' :: 'c' :: 't' :: 'i' :: 'o' :: 'n' :: '"' ::
    ',' :: '"' :: 'f' :: 'e' :: 'a' :: 't' :: 'u' :: 'r' :: 'e' :: 's' ::
    '"' :: ':' :: '[' :: ([] : List Char) from rfl]
  simp only [List.cons_append, List.nil_append]
  rw [show (needE vs + fuel) + 4 = ((needE vs + fuel) + 3) + 1 from rfl,
    parseA_obj,
    show (needE vs + fuel) + 3 = ((needE vs + fuel) + 2) + 1 from rfl,
    parseA_members_key,
    show (needE vs + fuel) + 2 = ((needE vs + fuel) + 1) + 1 from rfl]
  simp only [hk1, hsk, parseA_str, hk2, Option.map_some',
    parseA_membersTail_comma_key, hk3, parseA_arr,
    parseA_file_elems vs fuel ['\x7d'], parseA_membersTail_close]
  rfl

/-! ## Fuel bounds: the parser fuel supplied by parseJson is enough -/

mutual

theorem needV_le (v : Json) : needV v ≤ 2 * (render v).length := by
  cases v with
  | null =>
      have h2 : needV Json.null = 1 := by simp [needV]
      have h1 : (render Json.null).length = 4 := by simp [render]
      omega
  | bool b =>
      cases b with
      | true =>
          have h2 : needV (Json.bool true) = 1 := by simp [needV]
          have h1 : (render (Json.bool true)).length = 4 := by simp [render]
          omega
      | false =>
          have h2 : needV (Json.bool false) = 1 := by simp [needV]
          have h1 : (render (Json.bool false)).length = 5 := by simp [render]
          omega
  | num i =>
      have h2 : needV (Json.num i) = 1 := by simp [needV]
      have h1 : 1 ≤ (render (Json.num i)).length := by
        by_cases hi : i < 0
        · rw [show render (Json.num i) = '-' :: renderNat i.natAbs from by
            simp [render, renderInt, hi]]
          simp
        · obtain ⟨d, cs, hd, hrn⟩ := renderNat_head i.toNat
          rw [show render (Json.num i) = renderNat i.toNat from by
            simp [render, renderInt, hi], hrn]
          simp
      omega
  | str s =>
      have h2 : needV (Json.str s) = 1 := by simp [needV]
      have h1 : 1 ≤ (render (Json.str s)).length := by simp [render]
      omega
  | arr vs =>
      have hE := needE_le vs
      have h2 : needV (Json.arr vs) = 1 + needE vs := by simp [needV]
      have h1 : (render (Json.arr vs)).length = (renderInner vs).length + 2 := by
        simp [render]
      omega
  | obj ms =>
      have hM := needM_le ms
      have h2 : needV (Json.obj ms) = 1 + needM ms := by simp [needV]
      have h1 : (render (Json.obj ms)).length = (renderMInner ms).length + 2 := by
        simp [render]
      omega
termination_by sizeOf v

theorem needE_le (vs : List Json) : needE vs ≤ 2 * (renderInner vs).length + 3 := by
  cases vs with
  | nil =>
      have h2 : needE ([] : List Json) = 1 := by simp [needE]
      omega
  | cons v vs2 =>
      have hV := needV_le v
      have hT := needT_le vs2
      have h2 : needE (v :: vs2) = 1 + needV v + needT vs2 := by simp [needE]
      have h1 : (renderInner (v :: vs2)).length =
          (render v).length + (renderTailL vs2).length := by
        simp [renderInner]
      omega
termination_by sizeOf vs

theorem needT_le (vs : List Json) : needT vs ≤ 2 * (renderTailL vs).length + 2 := by
  cases vs with
  | nil =>
      have h2 : needT ([] : List Json) = 1 := by simp [needT]
      omega
  | cons v vs2 =>
      have hV := needV_le v
      have hT := needT_le vs2
      have h2 : needT (v :: vs2) = 1 + needV v + needT vs2 := by simp [needT]
      have h1 : (renderTailL (v :: vs2)).length =
          (render v).length + (renderTailL vs2).length + 1 := by
        simp [renderTailL]
      omega
termination_by sizeOf vs

theorem needM_le (ms : List (String × Json)) :
    needM ms ≤ 2 * (renderMInner ms).length + 3 := by
  cases ms with
  | nil =>
      have h2 : needM ([] : List (String × Json)) = 1 := by simp [needM]
      omega
  | cons m ms2 =>
      obtain ⟨k, v⟩ := m
      have hV := needV_le v
      have hT := needMT_le ms2
      have h2 : needM ((k, v) :: ms2) = 1 + needV v + needMT ms2 := by simp [needM]
      have h1 : (renderMInner ((k, v) :: ms2)).length =
          (renderMember (k, v)).length + (renderMTailL ms2).length := by
        simp [renderMInner]
      have h3 : (renderMember (k, v)).length =
          (esc k.data).length + (render v).length + 3 := by
        simp [renderMember]
        omega
      omega
termination_by sizeOf ms

theorem needMT_le (ms : List (String × Json)) :
    needMT ms ≤ 2 * (renderMTailL ms).length + 2 := by
  cases ms with
  | nil =>
      have h2 : needMT ([] : List (String × Json)) = 1 := by simp [needMT]
      omega
  | cons m ms2 =>
      obtain ⟨k, v⟩ := m
      have hV := needV_le v
      have hT := needMT_le ms2
      have h2 : needMT ((k, v) :: ms2) = 1 + needV v + needMT ms2 := by
        simp [needMT]
      have h1 : (renderMTailL ((k, v) :: ms2)).length =
          (renderMember (k, v)).length + (renderMTailL ms2).length + 1 := by
        simp [renderMTailL]
      have h3 : (renderMember (k, v)).length =
          (esc k.data).length + (render v).length + 3 := by
        simp [renderMember]
        omega
      omega
termination_by sizeOf ms

end

theorem tailL_le_tailChars (vs : List Json) :
    (renderTailL vs).length ≤ (tailChars (vs.map renderStr)).length := by
  induction vs with
  | nil =>
      simp [renderTailL, tailChars]
  | cons v vs2 ih =>
      have h1 : (renderTailL (v :: vs2)).length =
          (render v).length + (renderTailL vs2).length + 1 := by
        simp [renderTailL]
      have h2 : (tailChars ((v :: vs2).map renderStr)).length =
          (render v).length + (tailChars (vs2.map renderStr)).length + 2 := by
        simp [tailChars, renderStr_data]
      omega

theorem inner_le_body (vs : List Json) :
    (renderInner vs).length ≤ ((featBody (vs.map renderStr)).data).length := by
  cases vs with
  | nil =>
      simp [renderInner, featBody_data_nil]
  | cons v vs2 =>
      have h0 := tailL_le_tailChars vs2
      have h1 : (renderInner (v :: vs2)).length =
          (render v).length + (renderTailL vs2).length := by
        simp [renderInner]
      have h2 : ((featBody ((v :: vs2).map renderStr)).data).length =
          (render v).length + (tailChars (vs2.map renderStr)).length + 1 := by
        rw [List.map_cons, featBody_data_cons, renderStr_data]
        simp
      omega

theorem parseJson_file (vs : List Json) :
    parseJson (fcHead ++ featBody (vs.map renderStr) ++ fcClose) =
      some (fcJson vs) := by
  have hdata : (fcHead ++ featBody (vs.map renderStr) ++ fcClose).data =
      fcHead.data ++ ((featBody (vs.map renderStr)).data ++ ['\n', ']', '\x7d']) := by
    rw [data_append, data_append]
    rw [show fcClose.data = ['\n', ']', '\x7d'] from rfl]
    simp [List.append_assoc]
  have h3 : (fcHead ++ featBody (vs.map renderStr) ++ fcClose).data.length =
      40 + (((featBody (vs.map renderStr)).data).length + 3) := by
    rw [hdata]
    simp [List.length_append]
    rfl
  have hlen : needE vs + 4 ≤
      2 * (fcHead ++ featBody (vs.map renderStr) ++ fcClose).data.length + 8 := by
    have h1 := needE_le vs
    have h2 := inner_le_body vs
    omega
  obtain ⟨gap, hgap⟩ : ∃ gap,
      2 * (fcHead ++ featBody (vs.map renderStr) ++ fcClose).data.length + 8 =
        (needE vs + gap) + 4 :=
    ⟨2 * (fcHead ++ featBody (vs.map renderStr) ++ fcClose).data.length + 8 - 4 -
      needE vs, by omega⟩
  unfold parseJson parseVal
  rw [hgap, hdata, parseA_file_skeleton vs gap]
  rfl

/-- Claim C3: for every sequence of feature texts, each the serialization
of a JSON object, the file written by a completed single-table export
parses as a JSON document whose top-level value is an object with
`type = "FeatureCollection"` and whose `features` member is the array of
exactly the emitted features, in order. -/
theorem c3_export_parses (sp : Bool) (b : Nat) (c : Except Unit Nat)
    (vs : List Json) (hobj : ∀ v ∈ vs, isObjB v = true) (hb : 0 < b) :
    parseJson (fileOf
        (export_table sp b c (vs.map (fun v => some (renderStr v))) .noFail)) =
      some (fcJson vs) := by
  have hfile := export_file_noFail sp b c (vs.map (fun v => some (renderStr v))) hb
  rw [fileOf, hfile, Option.getD_some]
  rw [show (vs.map (fun v => some (renderStr v))).filterMap id = vs.map renderStr
    from by
      clear hfile hobj
      induction vs with
      | nil => rfl
      | cons v vs2 ih => simp only [List.map_cons, List.filterMap_cons, id, ih]]
  exact parseJson_file vs

/-- Witness for C3: a one-feature export parses to the expected
FeatureCollection. -/
theorem c3_export_parses_witness :
    parseJson (fileOf
        (export_table true 2 (.ok 1)
          ([Json.obj [("id", Json.num 7)]].map (fun v => some (renderStr v)))
          .noFail)) =
      some (fcJson [Json.obj [("id", Json.num 7)]]) :=
  c3_export_parses true 2 (.ok 1) [Json.obj [("id", Json.num 7)]]
    (by intro v hv; simp only [List.mem_singleton] at hv; subst hv; rfl)
    (by omega)
